import Mathlib

/-!
# Verification of the forum automated-posting core

Shallow embedding of the two core source files of the repository:

* `src/automated_posting/src/convert_schedule.py` — the outline parser
  (`parse_schedule_text`), embedded over `List Char` / `String`.
* `src/automated_posting/src/main.py` — the dispatch scheduler
  (`run_watch` continuous mode and `run_schedule` single-pass mode),
  embedded as explicit state-passing functions; the external Publisher
  (`forum_provider.submit_thread` / `submit_reply`) is an oracle
  parameter, and the `random.shuffle` call is an injectable permutation.

Modelling conventions:
* Python `str.strip()` and the regex classes `\s` / `\d` are modelled over
  their ASCII meaning (the schedule data is ASCII).
* Calendar dates are tracked as day ordinals (`Int`): the parser's
  `start + (day-1) days` arithmetic is kept, the `%Y-%m-%d` rendering is
  abstracted away; none of the verified claims inspects the rendering.
* Python dicts (`post_refs`, `state` lookups) are association lists /
  abstract functions; Python sets (`executed_posts`) are membership lists.
* Python truthiness tests on optional strings (`if not thread_id:`) are
  modelled by `falsy`, which holds for both `None` and `""`.
-/

namespace Forum

/-! ## Character utilities (Python `str.strip`, `\s`, `\d` over ASCII) -/

/-- ASCII whitespace, matching Python's `\s` and `str.strip()` on ASCII data. -/
def isWs (c : Char) : Bool :=
  c = ' ' || c = '\t' || c = '\n' || c = '\r' || c = '\x0b' || c = '\x0c'

/-- Left trim, as in Python `lstrip`. -/
def trimL (l : List Char) : List Char := l.dropWhile isWs

/-- Right trim, as in Python `rstrip`. -/
def trimR (l : List Char) : List Char := (l.reverse.dropWhile isWs).reverse

/-- Python `str.strip()` on a character list. -/
def trim (l : List Char) : List Char := trimL (trimR l)

/-- Python `str.strip()` on a `String`. -/
def sTrim (s : String) : String := ⟨trim s.data⟩

/-- Decimal digits of a natural number, fuelled so that the definition
is structural (the fuel never runs out when it exceeds the number of
digits, see `natCharsF_irrel`). -/
def natCharsF : Nat → Nat → List Char
  | 0, _ => []
  | f + 1, n =>
    if n < 10 then [Char.ofNat (48 + n)]
    else natCharsF f (n / 10) ++ [Char.ofNat (48 + n % 10)]

/-- Decimal digits of a natural number (Python `str(n)` / `f"{n}"`). -/
def natChars (n : Nat) : List Char := natCharsF (n + 1) n

/-- Python `str(n)` for a natural number. -/
def natStr (n : Nat) : String := ⟨natChars n⟩

/-- Split a character list on a separator, Python `str.split(sep)`:
always returns at least one (possibly empty) piece. -/
def splitOnChar (sep : Char) : List Char → List (List Char)
  | [] => [[]]
  | c :: r =>
    match splitOnChar sep r with
    | [] => [[]]
    | h :: t => if c = sep then [] :: h :: t else (c :: h) :: t

/-! ## Line matchers

Hand-rolled matchers for the regular expressions of
`convert_schedule.parse_schedule_text`, reproducing the Python `re`
backtracking engine's choice of groups. -/

/-- Maximal digit prefix and remainder (`\d+` greedy). -/
def digitRun (l : List Char) : List Char × List Char :=
  (l.takeWhile Char.isDigit, l.dropWhile Char.isDigit)

/-- Numeric value of a digit list (Python `int`). -/
def digitsVal (l : List Char) : Nat :=
  l.foldl (fun a c => 10 * a + (c.toNat - 48)) 0

/-- Auxiliary bound used for termination of the matchers. -/
theorem dropWhile_len_le (p : Char → Bool) (l : List Char) :
    (l.dropWhile p).length ≤ l.length :=
  (List.dropWhile_sublist _).length_le

/-- Greedy `(?:\.\d+)*` with explicit fuel (structural recursion; the
fuel never runs out when it is at least the input length). -/
def dotRunsF : Nat → List Char → List Char × List Char
  | 0, l => ([], l)
  | f + 1, l =>
    match l with
    | '.' :: c :: r =>
      if c.isDigit then
        let p := dotRunsF f ((c :: r).dropWhile Char.isDigit)
        ('.' :: (c :: r).takeWhile Char.isDigit ++ p.1, p.2)
      else ([], '.' :: c :: r)
    | l => ([], l)

/-- Greedy `(?:\.\d+)*`: consume as many `.digits` groups as possible. -/
def dotRuns (l : List Char) : List Char × List Char := dotRunsF l.length l

/-- `(\d+(?:\.\d+)*)` greedy: the hierarchical id token, or `none` when the
input does not start with a digit.  Returns the token and the remainder. -/
def idToken? (l : List Char) : Option (List Char × List Char) :=
  let ds := l.takeWhile Char.isDigit
  if ds = [] then none
  else
    let p := dotRuns (l.dropWhile Char.isDigit)
    some (ds ++ p.1, p.2)

/-- Split at the first tab: `some (before, after)`, `before` tab-free. -/
def splitFirstTab : List Char → Option (List Char × List Char)
  | [] => none
  | c :: r =>
    if c = '\t' then some ([], r)
    else
      match splitFirstTab r with
      | none => none
      | some (a, b) => some (c :: a, b)

/-- Split at the first tab occurring at index ≥ 1 (the lazy `(.+?)\t`):
the first field is nonempty and may itself start with a tab. -/
def splitTabGe1 : List Char → Option (List Char × List Char)
  | [] => none
  | c :: r =>
    match splitFirstTab r with
    | none => none
    | some (a, b) => some (c :: a, b)

/-- Whether a pre-tab prefix is generated by `(\d+(?:\.\d+)*)?\.?`,
returning the row id (group 1, defaulting to `"0"` when absent). -/
def idPrefixOk? (a : List Char) : Option (List Char) :=
  match idToken? a with
  | some (d, r) => if r = [] ∨ r = ['.'] then some d else none
  | none => if a = [] ∨ a = ['.'] then some ['0'] else none

/-- The tab-grammar content-row regex
`^(\d+(?:\.\d+)*)?\.?\t(.+?)\t(.*)$` of `parse_schedule_text`:
returns `(row_id, account.strip(), content.strip())`. -/
def matchTabRow (l : List Char) : Option (List Char × List Char × List Char) :=
  match splitFirstTab l with
  | none => none
  | some (a, b) =>
    match idPrefixOk? a with
    | none => none
    | some rid =>
      match splitTabGe1 b with
      | none => none
      | some (acc, rest) => some (rid, trim acc, trim rest)

/-- Scan for the first index `≥ j` (second argument is the suffix
`t.drop j`) at which two consecutive whitespace characters start. -/
def findTwoWsAux : List Char → Nat → Option Nat
  | c1 :: c2 :: r, j =>
    if isWs c1 && isWs c2 then some j else findTwoWsAux (c2 :: r) (j + 1)
  | _, _ => none

/-- First index `≥ j` of two consecutive whitespace characters in `t`. -/
def findTwoWsFrom (t : List Char) (j : Nat) : Option Nat :=
  findTwoWsAux (t.drop j) j

/-- Length of the maximal whitespace prefix (`\s*` greedy). -/
def wsRun (l : List Char) : Nat := (l.takeWhile isWs).length

/-- Backtracking search of `\s+(.+?)\s{2,}(.*)$` as Python's engine
performs it: the length taken by `\s+` is tried longest-first (the
argument is the current candidate length), and for each, the lazy
`(.+?)` stops at the earliest following two-whitespace run; `\s{2,}`
then consumes that run greedily.  Returns `(account, content)` groups. -/
def tryW (t : List Char) : Nat → Option (List Char × List Char)
  | 0 => none
  | w + 1 =>
    match findTwoWsFrom t (w + 2) with
    | some j =>
      let g := wsRun (t.drop j)
      some ((t.drop (w + 1)).take (j - (w + 1)), t.drop (j + g))
    | none => tryW t w

/-- The fallback content-row regex
`^(\d+(?:\.\d+)*)\.?\s+(.+?)\s{2,}(.*)$` of `parse_schedule_text`:
returns `(row_id, account.strip(), content.strip())`. -/
def matchFallbackRow (l : List Char) : Option (List Char × List Char × List Char) :=
  match idToken? l with
  | none => none
  | some (d, r) =>
    let r1 := match r with
      | '.' :: rr => rr
      | _ => r
    let m := wsRun r1
    if m = 0 then none
    else
      match tryW r1 m with
      | none => none
      | some (acc, rest) => some (d, trim acc, trim rest)

/-- A content row: the tab grammar is tried first, then the fallback
grammar, exactly as in the source. -/
def matchRow (l : List Char) : Option (List Char × List Char × List Char) :=
  (matchTabRow l).orElse fun _ => matchFallbackRow l

/-- The continuation-breaking row test `^\d+(?:\.\d+)*\.?\t`. -/
def breakRowTab (l : List Char) : Bool :=
  match idToken? l with
  | none => false
  | some (_, r) =>
    match r with
    | '\t' :: _ => true
    | '.' :: '\t' :: _ => true
    | _ => false

/-- The case-insensitive day-header test `^Day\s+\d+:` (used both as a
continuation breaker and as the head of the full day-header regex). -/
def dayPrefixNum? (l : List Char) : Option (Nat × List Char) :=
  match l with
  | c1 :: c2 :: c3 :: r =>
    if (c1 = 'D' || c1 = 'd') && (c2 = 'A' || c2 = 'a') && (c3 = 'Y' || c3 = 'y') then
      match r with
      | c4 :: _ =>
        if isWs c4 then
          let r2 := r.dropWhile isWs
          let (ds, r3) := digitRun r2
          if ds = [] then none
          else
            match r3 with
            | ':' :: rest => some (digitsVal ds, rest)
            | _ => none
        else none
      | [] => none
    else none
  | _ => none

/-- `^Day\s+\d+:` as a Boolean (continuation breaker). -/
def dayPrefixMatch (l : List Char) : Bool := (dayPrefixNum? l).isSome

/-- The full day-header regex `^Day\s+(\d+):\s*(.+)$` (case-insensitive),
applied to a stripped line; returns the day number and the stripped
title (`group(2).strip()`). -/
def matchDayFull (l : List Char) : Option (Nat × List Char) :=
  match dayPrefixNum? l with
  | none => none
  | some (n, rest) => if rest = [] then none else some (n, trim rest)

/-- Python's substring containment `pat in s` on character lists. -/
def hasSub (pat : List Char) : List Char → Bool
  | [] => pat.isPrefixOf []
  | c :: r => pat.isPrefixOf (c :: r) || hasSub pat r

/-- The table-header skip test: `line.startswith("ID") and "Bot" in line`. -/
def headerSkip (l : List Char) : Bool :=
  ['I', 'D'].isPrefixOf l && hasSub ['B', 'o', 't'] l

/-- The continuation-breaking table-header test `^ID\t`. -/
def breakHeader (l : List Char) : Bool :=
  match l with
  | 'I' :: 'D' :: '\t' :: _ => true
  | _ => false

/-- Whether a raw lookahead line stops body accumulation: a tab-grammar
row start, a day header, a tab table header, or a blank line
(`not next_line.strip()`). -/
def breaksCont (l : List Char) : Bool :=
  breakRowTab l || dayPrefixMatch l || breakHeader l || trim l = []

/-- The continuation loop: append stripped lookahead lines to the body,
joined with a single space, until a breaking line; returns the collected
body and the unconsumed lines (starting at the breaking line). -/
def collectCont (c : List Char) : List (List Char) → List Char × List (List Char)
  | [] => (c, [])
  | l :: ls =>
    if breaksCont l then (c, l :: ls)
    else collectCont (c ++ ' ' :: trim l) ls

/-! ## The outline parser (`parse_schedule_text`) -/

/-- The literal generation-placeholder marker removed from bodies
(`re.sub(r'/LLM generated sentence/', '', content)`). -/
def marker : List Char := "/LLM generated sentence/".data

/-- Marker removal with explicit fuel (structural recursion; the fuel
never runs out when it is at least the input length). -/
def stripMarkerF : Nat → List Char → List Char
  | 0, _ => []
  | _ + 1, [] => []
  | f + 1, c :: cs =>
    if marker.isPrefixOf (c :: cs) then stripMarkerF f ((c :: cs).drop marker.length)
    else c :: stripMarkerF f cs

/-- Remove every (leftmost, non-overlapping) occurrence of the marker. -/
def stripMarker (l : List Char) : List Char := stripMarkerF l.length l

/-- The body cleanup: `content.strip()`, placeholder removal, `strip()`. -/
def cleanupBody (c : List Char) : List Char := trim (stripMarker (trim c))

/-- Zero-padded two-digit rendering (`f"{n:02d}"`). -/
def pad2 (n : Nat) : List Char :=
  if n < 10 then '0' :: natChars n else natChars n

/-- The time string assigned at intra-day offset `off` minutes:
`hour = 10 + off // 60`, `minute = off % 60`, formatted `HH:MM`. -/
def timeStr (off : Nat) : String :=
  ⟨pad2 (10 + off / 60) ++ ':' :: pad2 (off % 60)⟩

/-- `replyTo` derivation for a comment row: split the row id on `.`;
one segment replies to `"0"`, otherwise drop the last segment. -/
def replyToOf (rid : List Char) : List Char :=
  let parts := splitOnChar '.' rid
  if parts.length = 1 then ['0']
  else List.intercalate ['.'] parts.dropLast

/-- One flat schedule record as produced by `parse_schedule_text`
(the dict appended to `rows`); `dateOrd` abstracts the formatted
calendar date as a day ordinal. -/
structure SRow where
  dateOrd : Int
  time : String
  account : String
  title : String
  body : String
  kind : String
  reply_to : String
  community : String
  row_id : String
deriving DecidableEq, Repr

/-- The parser's per-day mutable state: `current_day`, `current_date`
(as ordinal), `current_title` (stored stripped), `minute_offset`. -/
structure PState where
  day : Nat
  dateOrd : Int
  title : List Char
  minuteOffset : Nat
deriving DecidableEq, Repr

/-- The continuation loop never produces more unconsumed lines than it
was given (used for termination of the parser loop). -/
theorem collectCont_len_le (c : List Char) (rest : List (List Char)) :
    (collectCont c rest).2.length ≤ rest.length := by
  induction rest generalizing c with
  | nil => simp [collectCont]
  | cons l ls ih =>
    simp only [collectCont]
    split
    · simp
    · exact (ih _).trans (by simp)

/-- The record built for a recognized content row. -/
def mkRecord (community : String) (ps : PState) (rid acct body : List Char) : SRow :=
  let kindSelf := rid = ['0']
  { dateOrd := ps.dateOrd
    time := timeStr ps.minuteOffset
    account := ⟨acct⟩
    title := if kindSelf then ⟨ps.title⟩ else ""
    body := ⟨body⟩
    kind := if kindSelf then "self" else "comment"
    reply_to := if kindSelf then "" else ⟨replyToOf rid⟩
    community := community
    row_id := ⟨rid⟩ }

/-- The main loop of `parse_schedule_text` over the (already split)
lines, with explicit fuel making the recursion structural (the fuel
never runs out when it is at least the number of lines, since the
continuation loop never produces more unconsumed lines than it was
given); faithful to the source's control flow: blank-line skip, day
header, table-header skip, content-row match with continuation
collection, time assignment (the 5-minute counter advances for every
recognized row), cleanup, and the empty-comment drop. -/
def parseLinesF (startOrd : Int) (community : String) :
    Nat → PState → List (List Char) → List SRow
  | 0, _, _ => []
  | _ + 1, _, [] => []
  | f + 1, ps, l :: rest =>
    let line := trim l
    if line = [] then parseLinesF startOrd community f ps rest
    else
      match matchDayFull line with
      | some (d, ttl) =>
          parseLinesF startOrd community f ⟨d, startOrd + (d : Int) - 1, ttl, 0⟩ rest
      | none =>
        if headerSkip line then parseLinesF startOrd community f ps rest
        else
          match matchRow line with
          | none => parseLinesF startOrd community f ps rest
          | some (rid, acct, c0) =>
            let cc := collectCont c0 rest
            let ps' : PState := ⟨ps.day, ps.dateOrd, ps.title, ps.minuteOffset + 5⟩
            let body := cleanupBody cc.1
            if body = [] ∧ rid ≠ ['0'] then
              parseLinesF startOrd community f ps' cc.2
            else
              mkRecord community ps rid acct body ::
                parseLinesF startOrd community f ps' cc.2

/-- The main loop of `parse_schedule_text` (fuelled by the line count). -/
def parseLines (startOrd : Int) (community : String)
    (ps : PState) (lines : List (List Char)) : List SRow :=
  parseLinesF startOrd community lines.length ps lines

/-- `parse_schedule_text(text_content, start_date, community_slug)`:
strip the text, split on newlines, and run the line loop from the
initial state (`current_day = 0`, `current_date = start`,
`current_title = ""`, `minute_offset = 0`). -/
def parse_schedule_text (text : String) (startOrd : Int) (community : String) :
    List SRow :=
  parseLines startOrd community ⟨0, startOrd, [], 0⟩
    (splitOnChar '\n' (trim text.data))

/-! ## The dispatch scheduler (`main.run_watch` and `main.run_schedule`)

The Publisher (`forum_provider.submit_thread` / `submit_reply`) is a
black-box oracle: a function of the running call count and the call
content, returning either a result or an error (`ForumProviderError`,
which `APIError` subclasses).  `random.shuffle` is an injectable
permutation supplied with each tick. -/

/-- A schedule CSV row as consumed by `main.py` (`csv.DictReader`). -/
structure CRow where
  datetime : String
  time : String
  account : String
  title : String
  body : String
  kind : String
  reply_to : String
  community : String
deriving DecidableEq, Repr

/-- A Publisher invocation: `submit_thread` or `submit_reply`. -/
inductive PubCall where
  | thread (botId slug title content : String)
  | reply (botId threadId content : String) (parent : Option String)
deriving DecidableEq, Repr

/-- A successful Publisher response (`{threadId, postId}` /
`{postId}`; `submit_reply`'s `threadId` component is unused). -/
structure PubResult where
  threadId : String
  postId : String
deriving DecidableEq, Repr

/-- The scheduler's external collaborators: `state["account_mapping"]`,
`state["bot_tokens"]`, the community-slug fallbacks, and the Publisher
oracle (indexed by the number of calls made so far, so results may vary
between calls). -/
structure WEnv where
  accountMap : String → Option String
  botTokens : String → Option String
  botCommunity : String → Option String
  defaultCommunity : Option String
  pub : Nat → PubCall → Except Unit PubResult

/-- Python truthiness of an optional string: `None` and `""` are falsy. -/
def falsy : Option String → Bool
  | none => true
  | some s => s = ""

/-- Lookup in the `post_refs` dict. -/
def lookupRef (k : String) (refs : List (String × String)) : Option String :=
  (refs.find? (fun p => p.1 == k)).map (·.2)

/-- `post_refs[k] = v`: overwrite an existing binding in place, or
append a new one (Python dict assignment). -/
def setRef (k v : String) (refs : List (String × String)) :
    List (String × String) :=
  if refs.any (fun p => p.1 == k) then
    refs.map (fun p => if p.1 == k then (k, v) else p)
  else refs ++ [(k, v)]

/-- The watch-mode runtime state: the `executed_posts` ledger, the
`post_refs` reply index, and the number of Publisher calls made. -/
structure WState where
  executed : List String
  refs : List (String × String)
  calls : Nat
deriving Repr

/-- A Publisher invocation event, tagged with the ledger key of the
record that made it. -/
abbrev Event := String × PubCall

/-- The ledger key `f"{idx}:{row_date}:{row_time}"`. -/
def postKey (idx : Nat) (d t : String) : String :=
  ⟨natChars idx ++ ':' :: (d.data ++ ':' :: t.data)⟩

/-- The first dot-segment of `reply_to` (`reply_to.split(".")[0]`). -/
def threadRefOf (replyTo : String) : String :=
  ⟨(splitOnChar '.' replyTo.data).headD []⟩

/-- Processing of one due record inside `run_watch`'s batch loop
(lines 361–458 of `main.py`): account and token lookup with skip,
community fallback, thread/reply dispatch, `post_refs` registration,
and the ledger-key marking that every branch performs. -/
def processRecord (env : WEnv) (item : Nat × CRow × String) (st : WState) :
    WState × List Event :=
  let idx := item.1
  let row := item.2.1
  let key := item.2.2
  let accountName := sTrim row.account
  let kind := sTrim row.kind
  let replyTo := sTrim row.reply_to
  let bid? := env.accountMap accountName
  if falsy bid? then ({ st with executed := key :: st.executed }, [])
  else
    let botId := bid?.getD ""
    if falsy (env.botTokens botId) then
      ({ st with executed := key :: st.executed }, [])
    else
      let c0 := sTrim row.community
      let slug := if c0 = "" then (env.botCommunity botId).getD "" else c0
      if kind = "self" then
        let call := PubCall.thread botId slug (sTrim row.title) (sTrim row.body)
        match env.pub st.calls call with
        | .ok res =>
          ({ executed := key :: st.executed,
             refs := setRef (natStr idx) res.threadId st.refs,
             calls := st.calls + 1 }, [(key, call)])
        | .error _ =>
          ({ st with executed := key :: st.executed, calls := st.calls + 1 },
           [(key, call)])
      else if kind = "comment" then
        let tid? := lookupRef (threadRefOf replyTo) st.refs
        let parent? := if replyTo.data.contains '.' then lookupRef replyTo st.refs
                       else none
        if falsy tid? then ({ st with executed := key :: st.executed }, [])
        else
          let call := PubCall.reply botId (tid?.getD "") (sTrim row.body) parent?
          match env.pub st.calls call with
          | .ok res =>
            ({ executed := key :: st.executed,
               refs := setRef replyTo res.postId st.refs,
               calls := st.calls + 1 }, [(key, call)])
          | .error _ =>
            ({ st with executed := key :: st.executed, calls := st.calls + 1 },
             [(key, call)])
      else ({ st with executed := key :: st.executed }, [])

/-- The due test for one enumerated row (lines 346–353): the stripped
`(datetime, time)` must equal the current tick and the ledger key must
not yet be in `executed_posts`. -/
def dueFn (cd ct : String) (executed : List String) (p : Nat × CRow) :
    Option (Nat × CRow × String) :=
  let rd := sTrim p.2.datetime
  let rt := sTrim p.2.time
  let key := postKey p.1 rd rt
  if rd = cd ∧ rt = ct ∧ key ∉ executed then some (p.1, p.2, key)
  else none

/-- The due-set selection of one tick (lines 345–353). -/
def dueList (rows : List CRow) (cd ct : String) (executed : List String) :
    List (Nat × CRow × String) :=
  rows.enum.filterMap (dueFn cd ct executed)

/-- Sequential processing of a (shuffled) due batch. -/
def processBatch (env : WEnv) :
    List (Nat × CRow × String) → WState → WState × List Event
  | [], st => (st, [])
  | x :: xs, st =>
    let r := processRecord env x st
    let rs := processBatch env xs r.1
    (rs.1, r.2 ++ rs.2)

/-- One polling tick: the freshly reloaded rows, the current date and
time strings, and the permutation chosen by `random.shuffle`. -/
structure Tick where
  rows : List CRow
  cd : String
  ct : String
  shuffle : List (Nat × CRow × String) → List (Nat × CRow × String)

/-- One iteration of the watch loop: select the due set and, when it is
non-empty, process it in the shuffled order. -/
def runTick (env : WEnv) (t : Tick) (st : WState) : WState × List Event :=
  let due := dueList t.rows t.cd t.ct st.executed
  if due.isEmpty then (st, [])
  else processBatch env (t.shuffle due) st

/-- A finite execution of the watch loop (the loop runs until
externally cancelled; a trace is any finite prefix of ticks). -/
def runWatch (env : WEnv) : List Tick → WState → WState × List Event
  | [], st => (st, [])
  | t :: ts, st =>
    let r := runTick env t st
    let rs := runWatch env ts r.1
    (rs.1, r.2 ++ rs.2)

/-- The initial watch-mode state: empty ledger, empty reply index. -/
def initW : WState := ⟨[], [], 0⟩

/-! ### Single-pass mode (`run_schedule`) -/

/-- The single-pass runtime state: `post_refs` and the call count. -/
structure OState where
  refs : List (String × String)
  calls : Nat
deriving Repr

/-- Processing of one CSV row inside `run_schedule` (lines 201–291):
date filter (unstripped comparison), account/token skip, dispatch, and
`post_refs` registration (`str(len(post_refs))` for a thread, the
`reply_to` reference for a reply). -/
def runOnceStep (env : WEnv) (today : String) (row : CRow) (st : OState) :
    OState × List PubCall :=
  if row.datetime ≠ today then (st, [])
  else
    let accountName := sTrim row.account
    let kind := sTrim row.kind
    let replyTo := sTrim row.reply_to
    let bid? := env.accountMap accountName
    if falsy bid? then (st, [])
    else
      let botId := bid?.getD ""
      if falsy (env.botTokens botId) then (st, [])
      else
        let c0 := sTrim row.community
        let slug := if c0 = "" then env.defaultCommunity.getD "" else c0
        if kind = "self" then
          let call := PubCall.thread botId slug (sTrim row.title) (sTrim row.body)
          match env.pub st.calls call with
          | .ok res =>
            ({ refs := setRef (natStr st.refs.length) res.threadId st.refs,
               calls := st.calls + 1 }, [call])
          | .error _ => ({ st with calls := st.calls + 1 }, [call])
        else if kind = "comment" then
          let tid? := lookupRef (threadRefOf replyTo) st.refs
          let parent? := if replyTo.data.contains '.' then lookupRef replyTo st.refs
                         else none
          if falsy tid? then (st, [])
          else
            let call := PubCall.reply botId (tid?.getD "") (sTrim row.body) parent?
            match env.pub st.calls call with
            | .ok res =>
              ({ refs := setRef replyTo res.postId st.refs,
                 calls := st.calls + 1 }, [call])
            | .error _ => ({ st with calls := st.calls + 1 }, [call])
        else (st, [])

/-- The single-pass loop over all CSV rows. -/
def runOnce (env : WEnv) (today : String) : List CRow → OState → OState × List PubCall
  | [], st => (st, [])
  | row :: rows, st =>
    let r := runOnceStep env today row st
    let rs := runOnce env today rows r.1
    (rs.1, r.2 ++ rs.2)

/-! ## Utility lemmas -/

/-- Decimal digit characters are injective below 10. -/
theorem digitChar_inj (a b : Nat) (ha : a < 10) (hb : b < 10)
    (h : Char.ofNat (48 + a) = Char.ofNat (48 + b)) : a = b := by
  interval_cases a <;> interval_cases b <;>
    first
      | rfl
      | exact absurd h (by decide)

/-- The fuel of `natCharsF` is irrelevant once it exceeds the argument. -/
theorem natCharsF_irrel : ∀ f g n : Nat, n < f → n < g →
    natCharsF f n = natCharsF g n := by
  intro f
  induction f with
  | zero => intro g n hf; omega
  | succ f ih =>
    intro g n hf hg
    cases g with
    | zero => omega
    | succ g =>
      simp only [natCharsF]
      by_cases h : n < 10
      · simp [h]
      · simp only [h, if_false]
        rw [ih g (n / 10) (by omega) (by omega)]

/-- Unfolding of `natChars` below 10. -/
theorem natChars_small {n : Nat} (h : n < 10) :
    natChars n = [Char.ofNat (48 + n)] := by
  simp [natChars, natCharsF, h]

/-- Unfolding of `natChars` at 10 and above. -/
theorem natChars_big {n : Nat} (h : ¬ n < 10) :
    natChars n = natChars (n / 10) ++ [Char.ofNat (48 + n % 10)] := by
  show natCharsF (n + 1) n = _
  have hstep : natCharsF (n + 1) n =
      natCharsF n (n / 10) ++ [Char.ofNat (48 + n % 10)] := by
    simp only [natCharsF, h, if_false]
  rw [hstep, natCharsF_irrel n (n / 10 + 1) (n / 10) (by omega) (by omega)]
  rfl

/-- `natChars` never returns the empty list. -/
theorem natChars_ne_nil (n : Nat) : natChars n ≠ [] := by
  by_cases h : n < 10
  · rw [natChars_small h]; simp
  · rw [natChars_big h]; simp

/-- Decimal rendering of naturals is injective. -/
theorem natChars_inj : ∀ a b : Nat, natChars a = natChars b → a = b := by
  intro a
  induction a using Nat.strong_induction_on with
  | _ a ih =>
    intro b h
    by_cases ha : a < 10 <;> by_cases hb : b < 10
    · rw [natChars_small ha, natChars_small hb] at h
      exact digitChar_inj a b ha hb (by simpa using h)
    · exfalso
      rw [natChars_small ha, natChars_big hb] at h
      have hlen := congrArg List.length h
      simp only [List.length_append, List.length_cons, List.length_nil] at hlen
      have hne := natChars_ne_nil (b / 10)
      cases hnb : natChars (b / 10) with
      | nil => exact hne hnb
      | cons x xs => rw [hnb] at hlen; simp at hlen
    · exfalso
      rw [natChars_big ha, natChars_small hb] at h
      have hlen := congrArg List.length h
      simp only [List.length_append, List.length_cons, List.length_nil] at hlen
      have hne := natChars_ne_nil (a / 10)
      cases hna : natChars (a / 10) with
      | nil => exact hne hna
      | cons x xs => rw [hna] at hlen; simp at hlen
    · rw [natChars_big ha, natChars_big hb] at h
      have hrev := congrArg List.reverse h
      simp only [List.reverse_append, List.reverse_cons, List.reverse_nil,
        List.nil_append, List.cons_append, List.cons.injEq] at hrev
      have hdiv : a / 10 = b / 10 := by
        have h2 := congrArg List.reverse hrev.2
        simp only [List.reverse_reverse] at h2
        exact ih (a / 10) (Nat.div_lt_self (by omega) (by omega)) _ h2
      have hmod : a % 10 = b % 10 :=
        digitChar_inj _ _ (Nat.mod_lt _ (by omega)) (Nat.mod_lt _ (by omega)) hrev.1
      omega

/-- Keys of records due in the same tick differ whenever their row
indices differ: the decimal index determines the key for fixed date and
time components. -/
theorem postKey_inj_idx (i j : Nat) (d t : String)
    (h : postKey i d t = postKey j d t) : i = j := by
  have h2 : natChars i ++ ':' :: (d.data ++ ':' :: t.data) =
      natChars j ++ ':' :: (d.data ++ ':' :: t.data) := congrArg String.data h
  exact natChars_inj _ _ (List.append_cancel_right h2)

/-! ## Parser lemmas -/

/-- The remainder left by `dotRunsF` is a sublist of its input. -/
theorem dotRunsF_snd_sublist : ∀ (f : Nat) (l : List Char),
    (dotRunsF f l).2.Sublist l := by
  intro f
  induction f with
  | zero => intro l; exact List.Sublist.refl _
  | succ f ih =>
    intro l
    simp only [dotRunsF]
    split
    · rename_i c r
      split
      · exact ((ih _).trans (List.dropWhile_sublist _)).trans
          (List.sublist_cons_self _ _)
      · exact List.Sublist.refl _
    · exact List.Sublist.refl _

/-- The remainder left by `dotRuns` is a sublist of its input. -/
theorem dotRuns_snd_sublist (l : List Char) : (dotRuns l).2.Sublist l :=
  dotRunsF_snd_sublist l.length l

/-- The remainder left by `idToken?` is a sublist of its input. -/
theorem idToken?_snd_sublist {l d r : List Char}
    (h : idToken? l = some (d, r)) : r.Sublist l := by
  unfold idToken? at h
  by_cases hds : l.takeWhile Char.isDigit = []
  · simp [hds] at h
  · simp only [hds, if_false, Option.some.injEq, Prod.mk.injEq] at h
    obtain ⟨-, h2⟩ := h
    rw [← h2]
    exact (dotRuns_snd_sublist _).trans (List.dropWhile_sublist _)

/-- A line passing the row-start break test contains a tab. -/
theorem breakRowTab_has_tab {l : List Char} (h : breakRowTab l = true) :
    '\t' ∈ l := by
  unfold breakRowTab at h
  split at h
  · simp at h
  · rename_i d r hid
    have hsub : r.Sublist l := idToken?_snd_sublist hid
    split at h
    · exact hsub.subset (List.mem_cons_self _ _)
    · exact hsub.subset (List.mem_cons_of_mem _ (List.mem_cons_self _ _))
    · simp at h

/-- A line passing the table-header break test contains a tab. -/
theorem breakHeader_has_tab {l : List Char} (h : breakHeader l = true) :
    '\t' ∈ l := by
  unfold breakHeader at h
  split at h
  · exact List.mem_cons_of_mem _ (List.mem_cons_of_mem _ (List.mem_cons_self _ _))
  · simp at h

/-- Exact characterization of the continuation loop: the collected body
is the starting content with every non-breaking lookahead line stripped
and appended after a single space, and the unconsumed remainder starts
at the first breaking line. -/
theorem collectCont_spec (rest : List (List Char)) : ∀ c : List Char,
    collectCont c rest =
      ((rest.takeWhile fun l => !breaksCont l).foldl
          (fun b l => b ++ ' ' :: trim l) c,
       rest.dropWhile fun l => !breaksCont l) := by
  induction rest with
  | nil => intro c; simp [collectCont]
  | cons l ls ih =>
    intro c
    by_cases hb : breaksCont l
    · simp [collectCont, hb, List.takeWhile_cons, List.dropWhile_cons]
    · simp [collectCont, hb, List.takeWhile_cons, List.dropWhile_cons, ih]

/-! ## Claim C7 -/

/-- **C7, counterexample.** The claim states that a line beginning a new
row *in either the tab-delimited or the two-or-more-spaces fallback
grammar* stops body accumulation and becomes its own record.  The line
`"1  Bob  World"` begins a row under the fallback grammar (second
parse: on its own it yields a `comment` record with `row_id = "1"`),
yet when it follows the content row `"0<tab>Alice<tab>Hello"` it is
merged into that row's body and no second record is produced (first
parse), because the continuation-breaking test only recognizes the
tab-delimited row pattern `^\d+(?:\.\d+)*\.?\t`. -/
theorem claimC7_cex :
    parse_schedule_text "Day 1: T\n0\tAlice\tHello\n1  Bob  World" 0 "c" =
      [⟨0, "10:00", "Alice", "T", "Hello 1  Bob  World", "self", "", "c", "0"⟩] ∧
    parse_schedule_text "Day 1: T\n1  Bob  World" 0 "c" =
      [⟨0, "10:00", "Bob", "", "World", "comment", "0", "c", "1"⟩] :=
  ⟨rfl, rfl⟩

/-- **C7 (amended).** For every recognized content line, subsequent
lines are appended to its body joined with a single space (each
continuation line stripped), and accumulation stops exactly at the
first line satisfying `breaksCont` — i.e. a line beginning a
*tab-delimited* row (`^\d+(?:\.\d+)*\.?\t`), beginning a day header,
being a tab-delimited table header (`^ID\t`), or blank.  A line that
begins a row only under the two-or-more-spaces fallback grammar (in
particular any tab-free, non-day-header, non-blank line) does not stop
accumulation and is merged into the previous row's body instead of
becoming its own record. -/
theorem claimC7 :
    (∀ (c : List Char) (rest : List (List Char)),
        collectCont c rest =
          ((rest.takeWhile fun l => !breaksCont l).foldl
              (fun b l => b ++ ' ' :: trim l) c,
           rest.dropWhile fun l => !breaksCont l)) ∧
    (∀ l : List Char, '\t' ∉ l → dayPrefixMatch l = false → trim l ≠ [] →
        breaksCont l = false) := by
  refine ⟨fun c rest => collectCont_spec rest c, fun l htab hday htrim => ?_⟩
  have h1 : breakRowTab l = false := by
    cases hx : breakRowTab l
    · rfl
    · exact absurd (breakRowTab_has_tab hx) htab
  have h2 : breakHeader l = false := by
    cases hx : breakHeader l
    · rfl
    · exact absurd (breakHeader_has_tab hx) htab
  simp [breaksCont, h1, h2, hday, htrim]

/-- Witness for `claimC7`: the fallback-grammar row line of the
counterexample indeed fails every continuation-breaking test. -/
theorem claimC7_witness : breaksCont "1  Bob  World".data = false :=
  claimC7.2 _ (by decide) (by decide) (by decide)

/-! ## Claim C8 -/

/-- **C8.** Parsing a day whose content rows have ids `"0"`, `"1"`,
`"1.1"`, `"1.1.1"` in that order assigns times `10:00, 10:05, 10:10,
10:15` and `replyTo` values `"", "0", "1", "1.1"` respectively, with
the first row of kind `self` and the rest of kind `comment`. -/
theorem claimC8 :
    parse_schedule_text
      "Day 1: Garden\n0\tResearchers\tHello\n1\tBee\tNice\n1.1\tAnt\tAgree\n1.1.1\tMoth\tIndeed"
      100 "c" =
      [⟨100, "10:00", "Researchers", "Garden", "Hello", "self", "", "c", "0"⟩,
       ⟨100, "10:05", "Bee", "", "Nice", "comment", "0", "c", "1"⟩,
       ⟨100, "10:10", "Ant", "", "Agree", "comment", "1", "c", "1.1"⟩,
       ⟨100, "10:15", "Moth", "", "Indeed", "comment", "1.1", "c", "1.1.1"⟩] :=
  rfl

/-! ## Claim C9 -/

/-- Every record emitted by the parser loop with kind `comment` has a
non-empty body: the `if not content and kind != "self": continue` guard
drops empty comments before they are appended. -/
theorem parseLinesF_comment_body :
    ∀ (f : Nat) (s : Int) (c : String) (ps : PState) (lines : List (List Char))
      (r : SRow), r ∈ parseLinesF s c f ps lines → r.kind = "comment" →
      r.body ≠ "" := by
  intro f
  induction f with
  | zero =>
    intro s c ps lines r hr
    simp [parseLinesF] at hr
  | succ f ih =>
    intro s c ps lines r hr hk
    cases lines with
    | nil => simp [parseLinesF] at hr
    | cons l rest =>
      rw [parseLinesF] at hr
      split at hr
      · exact ih s c ps rest r hr hk
      · split at hr
        · exact ih s c _ rest r hr hk
        · split at hr
          · exact ih s c ps rest r hr hk
          · split at hr
            · exact ih s c ps rest r hr hk
            · rename_i rid acct c0 hrow
              simp only [] at hr
              split at hr
              · exact ih s c _ _ r hr hk
              · rename_i hguard
                rcases List.mem_cons.mp hr with hEq | hMem
                · subst hEq
                  by_cases hrid : rid = ['0']
                  · simp [mkRecord, hrid] at hk
                  · have hbody : cleanupBody (collectCont c0 rest).1 ≠ [] := by
                      intro hb
                      exact hguard ⟨hb, hrid⟩
                    simp only [mkRecord, hrid, if_neg, ne_eq]
                    intro hbs
                    exact hbody (congrArg String.data hbs)
                · exact ih s c _ _ r hMem hk

/-- **C9.** After placeholder stripping and whitespace trimming, a
comment row with an empty body produces no record while a self row with
an empty body still produces one: for every input outline every emitted
record of kind `comment` has a non-empty body (first conjunct), and in
the concrete outline below — whose two content-row bodies are exactly
the placeholder marker — only the `self` record survives, with an empty
body, while the comment row is dropped (second conjunct). -/
theorem claimC9 :
    (∀ (text : String) (s : Int) (c : String) (r : SRow),
        r ∈ parse_schedule_text text s c → r.kind = "comment" → r.body ≠ "") ∧
    parse_schedule_text
      "Day 1: T\n0\tA\t/LLM generated sentence/\n1\tB\t/LLM generated sentence/"
      0 "c" =
      [⟨0, "10:00", "A", "T", "", "self", "", "c", "0"⟩] := by
  refine ⟨fun text s c r hr hk => ?_, rfl⟩
  exact parseLinesF_comment_body _ s c _ _ r hr hk

/-- Witness for `claimC9`: applied to a concrete outline and record. -/
theorem claimC9_witness :
    (⟨0, "10:05", "B", "", "Hi", "comment", "0", "c", "1"⟩ : SRow) ∈
      parse_schedule_text "Day 1: T\n0\tA\tx\n1\tB\tHi" 0 "c" ∧
    (⟨0, "10:05", "B", "", "Hi", "comment", "0", "c", "1"⟩ : SRow).body ≠ "" :=
  ⟨by decide, claimC9.1 "Day 1: T\n0\tA\tx\n1\tB\tHi" 0 "c" _ (by decide) rfl⟩

/-! ## Claim C10 -/

/-- The fuel of `parseLinesF` is irrelevant once it reaches the number
of lines (the loop consumes at least one line per step, and the
continuation loop never produces more lines than it was given). -/
theorem parseLinesF_irrel :
    ∀ (f g : Nat) (s : Int) (c : String) (ps : PState)
      (lines : List (List Char)), lines.length ≤ f → lines.length ≤ g →
      parseLinesF s c f ps lines = parseLinesF s c g ps lines := by
  intro f
  induction f with
  | zero =>
    intro g s c ps lines hf _
    have : lines = [] := List.eq_nil_of_length_eq_zero (by omega)
    subst this
    cases g <;> simp [parseLinesF]
  | succ f ih =>
    intro g s c ps lines hf hg
    cases lines with
    | nil => cases g <;> simp [parseLinesF]
    | cons l rest =>
      cases g with
      | zero => simp at hg
      | succ g =>
        simp only [List.length_cons] at hf hg
        rw [parseLinesF, parseLinesF]
        by_cases h1 : trim l = []
        · simp only [h1, if_pos]
          exact ih g s c ps rest (by omega) (by omega)
        · simp only [h1, if_neg, not_false_iff]
          cases hd : matchDayFull (trim l) with
          | some p =>
            simp only [hd]
            exact ih g s c _ rest (by omega) (by omega)
          | none =>
            simp only [hd]
            by_cases h2 : headerSkip (trim l)
            · simp only [h2, if_pos]
              exact ih g s c ps rest (by omega) (by omega)
            · simp only [h2, if_neg, not_false_iff]
              cases hm : matchRow (trim l) with
              | none =>
                simp only [hm]
                exact ih g s c ps rest (by omega) (by omega)
              | some t =>
                obtain ⟨rid, acct, c0⟩ := t
                simp only [hm]
                have hlen := collectCont_len_le c0 rest
                by_cases h3 : cleanupBody (collectCont c0 rest).1 = [] ∧ rid ≠ ['0']
                · rw [if_pos h3, if_pos h3]
                  exact ih g s c
                    ⟨ps.day, ps.dateOrd, ps.title, ps.minuteOffset + 5⟩
                    (collectCont c0 rest).2 (by omega) (by omega)
                · rw [if_neg h3, if_neg h3,
                    ih g s c ⟨ps.day, ps.dateOrd, ps.title, ps.minuteOffset + 5⟩
                      (collectCont c0 rest).2 (by omega) (by omega)]
                  simp

/-- **C10.** The parser advances the intra-day 5-minute counter for
every recognized content row, including comment rows later dropped for
an empty cleaned body: processing a recognized row whose cleaned body
is empty and whose id is not `"0"` emits nothing but still advances
`minute_offset` by 5 before continuing past the row's continuation
lines (first conjunct); consequently an emitted record's time is 10:00
plus 5 minutes per preceding *recognized* row of its day, and two
consecutive emitted records can differ by more than 5 minutes when a
dropped row lies between them — in the concrete outline below the
records emitted for rows `"0"` and `"2"` carry times `10:00` and
`10:10` because the dropped row `"1"` consumed the `10:05` slot
(second conjunct). -/
theorem claimC10 :
    (∀ (s : Int) (c : String) (ps : PState) (l : List Char)
        (rest : List (List Char)) (rid acct c0 : List Char),
      trim l ≠ [] →
      matchDayFull (trim l) = none →
      headerSkip (trim l) = false →
      matchRow (trim l) = some (rid, acct, c0) →
      cleanupBody (collectCont c0 rest).1 = [] →
      rid ≠ ['0'] →
      parseLines s c ps (l :: rest) =
        parseLines s c ⟨ps.day, ps.dateOrd, ps.title, ps.minuteOffset + 5⟩
          (collectCont c0 rest).2) ∧
    parse_schedule_text "Day 1: T\n0\tA\tx\n1\tB\t/LLM generated sentence/\n2\tC\ty"
      0 "c" =
      [⟨0, "10:00", "A", "T", "x", "self", "", "c", "0"⟩,
       ⟨0, "10:10", "C", "", "y", "comment", "0", "c", "2"⟩] := by
  refine ⟨fun s c ps l rest rid acct c0 h1 h2 h3 h4 h5 h6 => ?_, rfl⟩
  unfold parseLines
  simp only [List.length_cons]
  rw [parseLinesF]
  simp only [h1, if_neg, not_false_iff, h2, h3, h4, Bool.false_eq_true, if_false]
  rw [if_pos ⟨h5, h6⟩]
  exact parseLinesF_irrel rest.length (collectCont c0 rest).2.length s c _ _
    (collectCont_len_le c0 rest) (le_refl _)

/-- Witness for `claimC10`: the dropped empty-comment row of the
concrete outline advances the counter from offset 5 to offset 10. -/
theorem claimC10_witness :
    parseLines 0 "c" ⟨1, 0, "T".data, 5⟩
        ["1\tB\t/LLM generated sentence/".data, "2\tC\ty".data] =
      parseLines 0 "c" ⟨1, 0, "T".data, 10⟩ ["2\tC\ty".data] :=
  claimC10.1 0 "c" ⟨1, 0, "T".data, 5⟩ "1\tB\t/LLM generated sentence/".data
    ["2\tC\ty".data] "1".data "B".data "/LLM generated sentence/".data
    (by decide) (by decide) (by decide) (by decide) (by decide) (by decide)

/-! ## Reply-index lemmas -/

/-- Unfolding of `lookupRef` on a cons cell. -/
theorem lookupRef_cons (p : String × String) (rs : List (String × String))
    (q : String) :
    lookupRef q (p :: rs) = if p.1 == q then some p.2 else lookupRef q rs := by
  simp only [lookupRef, List.find?]
  cases h : (p.1 == q) <;> simp

/-- Replacing the bindings of key `k` in place leaves other lookups
unchanged. -/
theorem mapReplace_lookup_other {q k : String} (h : q ≠ k) (v : String)
    (rs : List (String × String)) :
    lookupRef q (rs.map fun p => if p.1 == k then (k, v) else p) =
      lookupRef q rs := by
  induction rs with
  | nil => rfl
  | cons p rs ih =>
    rw [List.map_cons, lookupRef_cons, lookupRef_cons]
    by_cases hp : p.1 = k
    · have hk : (p.1 == k) = true := by simpa using hp
      have hkq : (k == q) = false := by simpa using fun e => h e.symm
      have hpq : (p.1 == q) = false := by simpa [hp] using fun e => h e.symm
      rw [if_pos hk]
      simp only [hkq, hpq, Bool.false_eq_true, if_false]
      exact ih
    · have hk : (p.1 == k) = false := by simpa using hp
      have hhead : (if (p.1 == k) = true then (k, v) else p) = p := by
        simp [hk]
      rw [hhead]
      cases hpq : (p.1 == q)
      · simp only [Bool.false_eq_true, if_false]
        exact ih
      · simp

/-- `setRef` on a head with a different key pushes inside. -/
theorem setRef_cons_ne {p : String × String} {k : String} (h : p.1 ≠ k)
    (v : String) (rs : List (String × String)) :
    setRef k v (p :: rs) = p :: setRef k v rs := by
  have h' : (p.1 == k) = false := by simpa using h
  have hhead : (if (p.1 == k) = true then (k, v) else p) = p := by
    simp [h']
  cases hany : rs.any (fun q => q.1 == k) with
  | true =>
    have hany' : (p :: rs).any (fun q => q.1 == k) = true := by
      simp [List.any_cons, hany]
    rw [setRef, if_pos hany', setRef, if_pos hany, List.map_cons, hhead]
  | false =>
    have hany' : (p :: rs).any (fun q => q.1 == k) = false := by
      simp [List.any_cons, hany, h']
    rw [setRef, if_neg (by rw [hany']; exact Bool.false_ne_true),
      setRef, if_neg (by rw [hany]; exact Bool.false_ne_true)]
    simp

/-- `setRef` on a head with the matching key replaces it. -/
theorem setRef_cons_eq {p : String × String} {k : String} (h : p.1 = k)
    (v : String) (rs : List (String × String)) :
    setRef k v (p :: rs) =
      (k, v) :: rs.map (fun p => if p.1 == k then (k, v) else p) := by
  have h' : (p.1 == k) = true := by simpa using h
  have hany' : (p :: rs).any (fun q => q.1 == k) = true := by
    simp [List.any_cons, h']
  rw [setRef, if_pos hany', List.map_cons, if_pos h']

/-- Dict assignment: looking up `k` after `post_refs[k] = v` yields `v`,
other keys are unchanged. -/
theorem lookupRef_setRef (q k v : String) (refs : List (String × String)) :
    lookupRef q (setRef k v refs) =
      if q = k then some v else lookupRef q refs := by
  induction refs with
  | nil =>
    by_cases h : q = k
    · simp [setRef, lookupRef, List.find?, h]
    · have h' : (k == q) = false := by simpa using fun e => h e.symm
      simp [setRef, lookupRef, List.find?, h, h']
  | cons p rs ih =>
    by_cases hp : p.1 = k
    · rw [setRef_cons_eq hp, lookupRef_cons, lookupRef_cons]
      by_cases h : q = k
      · have hkq : (k == q) = true := by simpa using h.symm
        simp [hkq, h]
      · have hkq : (k == q) = false := by simpa using fun e => h e.symm
        have hpq : (p.1 == q) = false := by simpa [hp] using fun e => h e.symm
        simp only [hkq, hpq, Bool.false_eq_true, if_false, if_neg h]
        exact mapReplace_lookup_other h v rs
    · rw [setRef_cons_ne hp, lookupRef_cons, lookupRef_cons]
      cases hpq : (p.1 == q)
      · simp only [Bool.false_eq_true, if_false]
        exact ih
      · by_cases h : q = k
        · exact absurd (by simpa [h] using hpq) hp
        · simp [h]

/-- `setRef` never removes a key: present lookups stay present. -/
theorem lookupRef_setRef_isSome {q : String} (k v : String)
    (refs : List (String × String)) (h : (lookupRef q refs).isSome) :
    (lookupRef q (setRef k v refs)).isSome := by
  rw [lookupRef_setRef]
  by_cases hq : q = k <;> simp [hq, h]

/-- `setRef` with a non-empty value never makes a truthy lookup falsy. -/
theorem lookupRef_setRef_live {q : String} (k v : String)
    (refs : List (String × String)) (hv : v ≠ "")
    (h : falsy (lookupRef q refs) = false) :
    falsy (lookupRef q (setRef k v refs)) = false := by
  rw [lookupRef_setRef]
  by_cases hq : q = k
  · simp [hq, falsy, hv]
  · simpa [hq] using h

/-! ## Per-record dispatch lemmas -/

/-- Every branch of the batch body marks the record's ledger key
executed: the skip branches, the success path, and the
`ForumProviderError` handler all perform `executed_posts.add(post_key)`. -/
theorem processRecord_executed (env : WEnv) (item : Nat × CRow × String)
    (st : WState) :
    (processRecord env item st).1.executed = item.2.2 :: st.executed := by
  obtain ⟨i, row, key⟩ := item
  unfold processRecord
  simp only []
  repeat' split
  all_goals rfl

/-- One record makes at most one Publisher call, tagged with its own
ledger key. -/
theorem processRecord_keys (env : WEnv) (item : Nat × CRow × String)
    (st : WState) :
    (processRecord env item st).2.map Prod.fst = [] ∨
      (processRecord env item st).2.map Prod.fst = [item.2.2] := by
  obtain ⟨i, row, key⟩ := item
  unfold processRecord
  simp only []
  repeat' split
  all_goals simp

/-- Present reply-index lookups stay present across one record. -/
theorem processRecord_refs_isSome_mono (env : WEnv)
    (item : Nat × CRow × String) (st : WState) (q : String)
    (h : (lookupRef q st.refs).isSome) :
    (lookupRef q (processRecord env item st).1.refs).isSome := by
  obtain ⟨i, row, key⟩ := item
  unfold processRecord
  simp only []
  repeat' split
  all_goals first
    | exact h
    | exact lookupRef_setRef_isSome _ _ _ h

/-- Truthy reply-index lookups stay truthy across one record, provided
the Publisher never returns an empty identifier. -/
theorem processRecord_live_mono (env : WEnv)
    (hpub : ∀ n c res, env.pub n c = .ok res →
      res.threadId ≠ "" ∧ res.postId ≠ "")
    (item : Nat × CRow × String) (st : WState) (q : String)
    (h : falsy (lookupRef q st.refs) = false) :
    falsy (lookupRef q (processRecord env item st).1.refs) = false := by
  obtain ⟨i, row, key⟩ := item
  unfold processRecord
  simp only []
  repeat' split
  all_goals first
    | exact h
    | exact lookupRef_setRef_live _ _ _ (hpub _ _ _ (by assumption)).1 h
    | exact lookupRef_setRef_live _ _ _ (hpub _ _ _ (by assumption)).2 h

/-! ## Batch lemmas -/

/-- Processing a batch adds exactly the batch's ledger keys to the
`executed_posts` set. -/
theorem processBatch_executed (env : WEnv) :
    ∀ (b : List (Nat × CRow × String)) (st : WState),
    (processBatch env b st).1.executed =
      (b.map (fun x => x.2.2)).reverse ++ st.executed := by
  intro b
  induction b with
  | nil => intro st; simp [processBatch]
  | cons x xs ih =>
    intro st
    simp only [processBatch, List.map_cons, List.reverse_cons,
      List.append_assoc, List.singleton_append]
    rw [ih, processRecord_executed]

/-- The ledger keys of a batch's Publisher events form a sublist of the
batch's keys (each record contributes at most one event, in order). -/
theorem processBatch_keys_sublist (env : WEnv) :
    ∀ (b : List (Nat × CRow × String)) (st : WState),
    ((processBatch env b st).2.map Prod.fst).Sublist
      (b.map (fun x => x.2.2)) := by
  intro b
  induction b with
  | nil => intro st; simp [processBatch]
  | cons x xs ih =>
    intro st
    simp only [processBatch, List.map_cons, List.map_append]
    rcases processRecord_keys env x st with hk | hk
    · rw [hk, List.nil_append]
      exact (ih _).cons _
    · rw [hk, List.singleton_append]
      exact (ih _).cons₂ _

/-- Present reply-index lookups stay present across a batch. -/
theorem processBatch_refs_isSome_mono (env : WEnv) :
    ∀ (b : List (Nat × CRow × String)) (st : WState) (q : String),
    (lookupRef q st.refs).isSome →
    (lookupRef q (processBatch env b st).1.refs).isSome := by
  intro b
  induction b with
  | nil => intro st q h; simpa [processBatch] using h
  | cons x xs ih =>
    intro st q h
    exact ih _ q (processRecord_refs_isSome_mono env x st q h)

/-! ## Due-set lemmas -/

/-- What a successful due test yields: the row's index, its key built
from the current date and time, and the key's absence from the ledger. -/
theorem dueFn_some {cd ct : String} {ex : List String} {p : Nat × CRow}
    {x : Nat × CRow × String} (h : dueFn cd ct ex p = some x) :
    x.1 = p.1 ∧ x.2.2 = postKey p.1 cd ct ∧ x.2.2 ∉ ex := by
  unfold dueFn at h
  simp only [] at h
  split at h
  · rename_i hc
    obtain ⟨h1, h2, h3⟩ := hc
    obtain rfl := Option.some.injEq .. ▸ h
    refine ⟨rfl, ?_, ?_⟩
    · simp only [h1, h2]
    · simpa [h1, h2] using h3
  · exact absurd h (by simp)

/-- Keys of distinct due records are distinct (row indices are distinct
in an enumeration, and the key determines the index). -/
theorem filterMap_dueFn_nodup (cd ct : String) (ex : List String) :
    ∀ l : List (Nat × CRow), (l.map Prod.fst).Nodup →
    ((l.filterMap (dueFn cd ct ex)).map fun x => x.2.2).Nodup := by
  intro l
  induction l with
  | nil => intro _; simp
  | cons a l ih =>
    intro hn
    rw [List.map_cons, List.nodup_cons] at hn
    rw [List.filterMap_cons]
    cases hfa : dueFn cd ct ex a with
    | none => exact ih hn.2
    | some b =>
      rw [List.map_cons, List.nodup_cons]
      refine ⟨?_, ih hn.2⟩
      intro hmem
      obtain ⟨x, hx, hxk⟩ := List.mem_map.mp hmem
      obtain ⟨p, hp, hfp⟩ := List.mem_filterMap.mp hx
      obtain ⟨hb1, hb2, -⟩ := dueFn_some hfa
      obtain ⟨hx1, hx2, -⟩ := dueFn_some hfp
      have hkey : postKey p.1 cd ct = postKey a.1 cd ct := by
        rw [← hx2, hxk, hb2]
      have : p.1 = a.1 := postKey_inj_idx _ _ _ _ hkey
      exact hn.1 (this ▸ List.mem_map_of_mem Prod.fst hp)

/-- The keys of a tick's due set are pairwise distinct. -/
theorem dueList_keys_nodup (rows : List CRow) (cd ct : String)
    (ex : List String) :
    ((dueList rows cd ct ex).map fun x => x.2.2).Nodup := by
  apply filterMap_dueFn_nodup
  rw [List.enum_map_fst]
  exact List.nodup_range _

/-- No due record's key is already in the ledger. -/
theorem dueList_keys_not_ex {rows : List CRow} {cd ct : String}
    {ex : List String} : ∀ x ∈ dueList rows cd ct ex, x.2.2 ∉ ex := by
  intro x hx
  obtain ⟨p, -, hfp⟩ := List.mem_filterMap.mp hx
  exact (dueFn_some hfp).2.2

/-! ## Tick lemmas -/

/-- The ledger only grows across a tick. -/
theorem runTick_exec_mono (env : WEnv) (t : Tick) (st : WState) {k : String}
    (h : k ∈ st.executed) : k ∈ (runTick env t st).1.executed := by
  unfold runTick
  by_cases hdue : (dueList t.rows t.cd t.ct st.executed).isEmpty
  · simpa [hdue] using h
  · simp only [hdue, Bool.false_eq_true, if_false]
    rw [processBatch_executed]
    exact List.mem_append_right _ h

/-- Within one tick the Publisher-event keys are pairwise distinct,
none of them was already in the ledger at the start of the tick, and
all of them are in the ledger at the end of the tick. -/
theorem runTick_events (env : WEnv) (t : Tick) (st : WState)
    (hp : ∀ l, (t.shuffle l).Perm l) :
    ((runTick env t st).2.map Prod.fst).Nodup ∧
    (∀ k ∈ (runTick env t st).2.map Prod.fst, k ∉ st.executed) ∧
    (∀ k ∈ (runTick env t st).2.map Prod.fst,
      k ∈ (runTick env t st).1.executed) := by
  unfold runTick
  by_cases hdue : (dueList t.rows t.cd t.ct st.executed).isEmpty
  · simp [hdue]
  · simp only [hdue, Bool.false_eq_true, if_false]
    have hkeysub := processBatch_keys_sublist env
      (t.shuffle (dueList t.rows t.cd t.ct st.executed)) st
    have hpm : ((t.shuffle (dueList t.rows t.cd t.ct st.executed)).map
        fun x => x.2.2).Perm
        ((dueList t.rows t.cd t.ct st.executed).map fun x => x.2.2) :=
      (hp _).map _
    have hshnodup : ((t.shuffle (dueList t.rows t.cd t.ct st.executed)).map
        fun x => x.2.2).Nodup :=
      hpm.nodup_iff.mpr (dueList_keys_nodup _ _ _ _)
    refine ⟨hkeysub.nodup hshnodup, ?_, ?_⟩
    · intro k hk
      have hk2 := hkeysub.subset hk
      have hk3 := hpm.subset hk2
      obtain ⟨x, hx, rfl⟩ := List.mem_map.mp hk3
      exact dueList_keys_not_ex x hx
    · intro k hk
      rw [processBatch_executed]
      exact List.mem_append_left _ (by simpa using hkeysub.subset hk)

/-! ## Claim C1 -/

/-- Trace invariant of the watch loop: the Publisher-event keys of a
whole run are pairwise distinct, and none of them was in the ledger at
the start of the run. -/
theorem runWatch_inv (env : WEnv) :
    ∀ (ticks : List Tick) (st : WState),
    (∀ t ∈ ticks, ∀ l, (t.shuffle l).Perm l) →
    ((runWatch env ticks st).2.map Prod.fst).Nodup ∧
    (∀ k ∈ (runWatch env ticks st).2.map Prod.fst, k ∉ st.executed) := by
  intro ticks
  induction ticks with
  | nil => intro st _; simp [runWatch]
  | cons t ts ih =>
    intro st hperm
    have hp : ∀ l, (t.shuffle l).Perm l := hperm t (List.mem_cons_self _ _)
    have hperm' : ∀ t' ∈ ts, ∀ l, (t'.shuffle l).Perm l :=
      fun t' ht' => hperm t' (List.mem_cons_of_mem _ ht')
    obtain ⟨ihn, ihm⟩ := ih (runTick env t st).1 hperm'
    obtain ⟨tn, tnotex, tinex⟩ := runTick_events env t st hp
    simp only [runWatch, List.map_append]
    constructor
    · refine List.Nodup.append tn ihn ?_
      intro k hk1 hk2
      exact ihm k hk2 (tinex k hk1)
    · intro k hk
      rcases List.mem_append.mp hk with hk1 | hk2
      · exact tnotex k hk1
      · intro hst
        exact ihm k hk2 (runTick_exec_mono env t st hst)

/-- **C1.** In continuous (watch) mode, once a record's composite
ledger key has been added to the `executed_posts` set, no later tick
ever produces a second Publisher call for it: over any finite execution
trace of the watch loop — any sequence of ticks, each with freshly
reloaded rows, an arbitrary current date/time, and an arbitrary shuffle
permutation — every ledger key tags at most one
`submit_thread`/`submit_reply` invocation. -/
theorem claimC1 (env : WEnv) (ticks : List Tick)
    (hperm : ∀ t ∈ ticks, ∀ l, (t.shuffle l).Perm l) (k : String) :
    ((runWatch env ticks initW).2.map Prod.fst).count k ≤ 1 :=
  List.nodup_iff_count_le_one.mp (runWatch_inv env ticks initW hperm).1 k

/-! ## Concrete test fixtures

A small environment with three personas, all tokens present, and a
Publisher that always succeeds, returning `"T<n>"`/`"P<n>"` identifiers
numbered by the call count. -/

/-- Test environment for concrete executions. -/
def envT : WEnv :=
  { accountMap := fun s =>
      if s = "A" then some "bA"
      else if s = "B" then some "bB"
      else if s = "C" then some "bC"
      else none
    botTokens := fun _ => some "tok"
    botCommunity := fun _ => some "comm"
    defaultCommunity := some "comm"
    pub := fun n _ => .ok ⟨"T" ++ natStr n, "P" ++ natStr n⟩ }

/-- Day-1 thread record (`rowId "0"`), due 10:00. -/
def rowSelfT : CRow := ⟨"2025-01-01", "10:00", "A", "Hello", "body0", "self", "", "c"⟩

/-- Top-level comment (`rowId "1"`, `reply_to "0"`), due 10:05. -/
def rowCom1T : CRow := ⟨"2025-01-01", "10:05", "B", "", "body1", "comment", "0", "c"⟩

/-- Nested comment (`rowId "1.1"`, `reply_to "1"`), due 10:10. -/
def rowCom11T : CRow := ⟨"2025-01-01", "10:10", "C", "", "body2", "comment", "1", "c"⟩

/-- Top-level comment (`rowId "1"`, `reply_to "0"`) scheduled at the
same minute as its thread record. -/
def rowComBatchT : CRow := ⟨"2025-01-01", "10:00", "B", "", "body1", "comment", "0", "c"⟩

/-- A tick at the given minute with an identity shuffle. -/
def mkTick (rows : List CRow) (ct : String) : Tick :=
  ⟨rows, "2025-01-01", ct, id⟩

/-- The three-record schedule executed in authored order. -/
def rowsT : List CRow := [rowSelfT, rowCom1T, rowCom11T]

/-- Three consecutive ticks covering the three scheduled minutes. -/
def ticksT3 : List Tick :=
  [mkTick rowsT "10:00", mkTick rowsT "10:05", mkTick rowsT "10:10"]

/-- Witness for `claimC1`: on a concrete three-tick trace the key of
the first record tags at most one Publisher call. -/
theorem claimC1_witness :
    ((runWatch envT ticksT3 initW).2.map Prod.fst).count "0:2025-01-01:10:00" ≤ 1 :=
  claimC1 envT ticksT3
    (by
      intro t ht l
      simp only [ticksT3, List.mem_cons, List.not_mem_nil, or_false] at ht
      rcases ht with rfl | rfl | rfl <;> exact List.Perm.refl l)
    "0:2025-01-01:10:00"

/-! ## Claim C2 -/

/-- When every record of a batch has a known account with a token and
(for comments) a thread reference already truthy in the reply index at
batch start, every record makes exactly one Publisher call. -/
theorem processBatch_all_dispatch (env : WEnv) (st0 : WState)
    (hpub : ∀ n c res, env.pub n c = .ok res →
      res.threadId ≠ "" ∧ res.postId ≠ "") :
    ∀ (b : List (Nat × CRow × String)) (st : WState),
    (∀ q, falsy (lookupRef q st0.refs) = false →
      falsy (lookupRef q st.refs) = false) →
    (∀ x ∈ b,
      falsy (env.accountMap (sTrim x.2.1.account)) = false ∧
      falsy (env.botTokens
        ((env.accountMap (sTrim x.2.1.account)).getD "")) = false ∧
      (sTrim x.2.1.kind = "self" ∨
        (sTrim x.2.1.kind = "comment" ∧
          falsy (lookupRef (threadRefOf (sTrim x.2.1.reply_to))
            st0.refs) = false))) →
    (processBatch env b st).2.map Prod.fst = b.map fun x => x.2.2 := by
  intro b
  induction b with
  | nil => intro st _ _; simp [processBatch]
  | cons x xs ih =>
    intro st hmono hok
    obtain ⟨hacc, htok, hkind⟩ := hok x (List.mem_cons_self _ _)
    have hrec : (processRecord env x st).2.map Prod.fst = [x.2.2] := by
      obtain ⟨i, row, key⟩ := x
      simp only [] at hacc htok hkind
      unfold processRecord
      simp only []
      rw [if_neg (by simp [hacc]), if_neg (by simp [htok])]
      rcases hkind with hself | ⟨hcom, hlive⟩
      · rw [if_pos hself]
        cases hp : env.pub st.calls _ <;> simp
      · rw [if_neg (by rw [hcom]; decide), if_pos hcom,
          if_neg (by simp [hmono _ hlive])]
        cases hp : env.pub st.calls _ <;> simp
    simp only [processBatch, List.map_cons, List.map_append]
    rw [hrec,
      ih (processRecord env x st).1
        (fun q hq => processRecord_live_mono env hpub x st q (hmono q hq))
        (fun y hy => hok y (List.mem_cons_of_mem _ hy)),
      List.singleton_append]

/-- The due batch containing both the thread record and its dependent
top-level comment at the same minute. -/
def dueBatchT : List (Nat × CRow × String) :=
  dueList [rowSelfT, rowComBatchT] "2025-01-01" "10:00" []

/-- **C2, counterexample.** The claim states that processing a due
batch of `N > 1` records invokes the Publisher exactly `N` times for
*every* permutation, with the same set of records.  For the concrete
due batch of `N = 2` records — a thread record and a comment whose
`reply_to` thread reference is that thread's own row index — the
authored order makes 2 Publisher calls, while the reversed order (a
legitimate outcome of `random.shuffle`) makes only 1: the comment is
processed before its thread exists in `post_refs`, hits the
`thread not found` skip, and is marked executed without any call. -/
theorem claimC2_cex :
    (processBatch envT dueBatchT initW).2.length = 2 ∧
    (processBatch envT dueBatchT.reverse initW).2.length = 1 ∧
    dueBatchT.reverse.Perm dueBatchT :=
  ⟨rfl, rfl, List.reverse_perm dueBatchT⟩

/-- **C2 (amended).** For a due batch of records *each of which is
independently dispatchable at batch start* — its account resolves to a
bot with a token, and a comment's thread reference is already truthy in
the reply index before the batch runs (no record depends on another
record of the same batch) — and a Publisher that never returns empty
identifiers, processing the batch invokes the Publisher exactly once
per record (`N` calls in all), and the multiset of dispatched record
keys equals the batch's keys for every permutation chosen by the
shuffle: under these conditions the outcome is independent of the
randomness.  Without the independence condition the original claim
fails (`claimC2_cex`). -/
theorem claimC2 (env : WEnv) (st : WState)
    (b b' : List (Nat × CRow × String))
    (hpub : ∀ n c res, env.pub n c = .ok res →
      res.threadId ≠ "" ∧ res.postId ≠ "")
    (hok : ∀ x ∈ b,
      falsy (env.accountMap (sTrim x.2.1.account)) = false ∧
      falsy (env.botTokens
        ((env.accountMap (sTrim x.2.1.account)).getD "")) = false ∧
      (sTrim x.2.1.kind = "self" ∨
        (sTrim x.2.1.kind = "comment" ∧
          falsy (lookupRef (threadRefOf (sTrim x.2.1.reply_to))
            st.refs) = false)))
    (hperm : b'.Perm b) :
    (processBatch env b' st).2.length = b.length ∧
    ((processBatch env b' st).2.map Prod.fst).Perm
      (b.map fun x => x.2.2) := by
  have hok' : ∀ x ∈ b', _ := fun x hx => hok x (hperm.subset hx)
  have hkeys := processBatch_all_dispatch env st hpub b' st
    (fun q h => h) hok'
  constructor
  · have hlen := congrArg List.length hkeys
    simp only [List.length_map] at hlen
    rw [hlen, hperm.length_eq]
  · rw [hkeys]
    exact hperm.map _

/-- Witness for `claimC2`: a concrete two-record independent batch
(two thread records due in the same minute), processed in reversed
order, still makes exactly 2 calls covering both keys. -/
theorem claimC2_witness :
    (processBatch envT
        (dueList [rowSelfT, ⟨"2025-01-01", "10:00", "B", "Hi", "b", "self", "", "c"⟩]
          "2025-01-01" "10:00" []).reverse initW).2.length =
      (dueList [rowSelfT, ⟨"2025-01-01", "10:00", "B", "Hi", "b", "self", "", "c"⟩]
          "2025-01-01" "10:00" []).length ∧
    ((processBatch envT
        (dueList [rowSelfT, ⟨"2025-01-01", "10:00", "B", "Hi", "b", "self", "", "c"⟩]
          "2025-01-01" "10:00" []).reverse initW).2.map Prod.fst).Perm
      ((dueList [rowSelfT, ⟨"2025-01-01", "10:00", "B", "Hi", "b", "self", "", "c"⟩]
          "2025-01-01" "10:00" []).map fun x => x.2.2) :=
  claimC2 envT initW _ _
    (by
      intro n c res h
      simp only [envT, Except.ok.injEq] at h
      subst h
      constructor
      · intro he
        have h2 : 'T' :: natChars n = ([] : List Char) := congrArg String.data he
        simp at h2
      · intro he
        have h2 : 'P' :: natChars n = ([] : List Char) := congrArg String.data he
        simp at h2)
    (by decide)
    (List.reverse_perm _)

/-! ## Claim C3 -/

/-- The `submit_thread` call a watch-mode `self` record makes (lines
395–400): bot id from the account mapping, community from the row or
the bot's fallback, stripped title and body. -/
def selfCall (env : WEnv) (row : CRow) : PubCall :=
  let botId := (env.accountMap (sTrim row.account)).getD ""
  let c0 := sTrim row.community
  PubCall.thread botId
    (if c0 = "" then (env.botCommunity botId).getD "" else c0)
    (sTrim row.title) (sTrim row.body)

/-- The `submit_reply` call a watch-mode `comment` record makes (lines
417–432): the thread id is the reply-index entry at the *first
dot-segment of the record's `reply_to`*, the parent is the entry at the
full `reply_to` when it contains a dot. -/
def commentCall (env : WEnv) (row : CRow) (refs : List (String × String)) :
    PubCall :=
  let botId := (env.accountMap (sTrim row.account)).getD ""
  let replyTo := sTrim row.reply_to
  PubCall.reply botId ((lookupRef (threadRefOf replyTo) refs).getD "")
    (sTrim row.body)
    (if replyTo.data.contains '.' then lookupRef replyTo refs else none)

/-- Two ticks covering the first two scheduled minutes. -/
def ticksT2 : List Tick := [mkTick rowsT "10:00", mkTick rowsT "10:05"]

/-- **C3, counterexample.** The schedule `self@row 0` (`rowId "0"`),
`comment@row 1` (`rowId "1"`, `reply_to "0"`), `comment@row 2`
(`rowId "1.1"`, `reply_to "1"`) satisfies the §3 invariants and is
executed in order over three ticks.  The day's self record publishes
successfully and is registered — under its row index `"0"` — yet the
nested comment's thread lookup uses the first dot-segment `"1"` of its
`reply_to`, which is unbound: only two Publisher calls happen, the
record at row 2 is skipped, and even the `"0"` entry no longer holds
the thread identifier `"T0"` (comment 1 overwrote it with its own post
id `"P1"`).  This refutes "every comment's thread lookup finds the
identifier registered by its day's self record". -/
theorem claimC3_cex :
    (runWatch envT ticksT3 initW).2.map Prod.fst =
      ["0:2025-01-01:10:00", "1:2025-01-01:10:05"] ∧
    lookupRef "1" (runWatch envT ticksT3 initW).1.refs = none ∧
    lookupRef "0" (runWatch envT ticksT3 initW).1.refs = some "P1" :=
  ⟨rfl, rfl, rfl⟩

/-- **C3 (amended).** Within one watch-mode run the two reference
schemes are: a successfully published `self` record is registered in
the ReplyIndex under the decimal string of its *CSV row index* (first
conjunct), while a `comment` record's thread lookup uses the *first
dot-segment of its `reply_to`* (second conjunct: every Publisher call
it emits takes its thread id from that index entry).  The schemes agree
— the comment finds the identifier registered by its day's self record
— only when that segment equals the self's row-index string and the
entry has not since been overwritten, not for every comment of a
§3-conforming schedule executed in order (`claimC3_cex`). -/
theorem claimC3 :
    (∀ (env : WEnv) (st : WState) (i : Nat) (row : CRow) (key : String)
        (res : PubResult),
      falsy (env.accountMap (sTrim row.account)) = false →
      falsy (env.botTokens
        ((env.accountMap (sTrim row.account)).getD "")) = false →
      sTrim row.kind = "self" →
      env.pub st.calls (selfCall env row) = .ok res →
      (processRecord env (i, row, key) st).1.refs =
        setRef (natStr i) res.threadId st.refs) ∧
    (∀ (env : WEnv) (st : WState) (i : Nat) (row : CRow) (key : String),
      falsy (env.accountMap (sTrim row.account)) = false →
      falsy (env.botTokens
        ((env.accountMap (sTrim row.account)).getD "")) = false →
      sTrim row.kind = "comment" →
      falsy (lookupRef (threadRefOf (sTrim row.reply_to)) st.refs) = false →
      ∀ e ∈ (processRecord env (i, row, key) st).2,
        e.2 = commentCall env row st.refs) := by
  constructor
  · intro env st i row key res hacc htok hself hres
    unfold selfCall at hres
    simp only [] at hres
    unfold processRecord
    simp only []
    rw [if_neg (by simp [hacc]), if_neg (by simp [htok]), if_pos hself, hres]
  · intro env st i row key hacc htok hcom hlive e he
    unfold processRecord at he
    simp only [] at he
    rw [if_neg (by simp [hacc]), if_neg (by simp [htok]),
      if_neg (by rw [hcom]; decide), if_pos hcom,
      if_neg (by simp [hlive])] at he
    unfold commentCall
    simp only []
    cases hp : env.pub st.calls
        (PubCall.reply ((env.accountMap (sTrim row.account)).getD "")
          ((lookupRef (threadRefOf (sTrim row.reply_to)) st.refs).getD "")
          (sTrim row.body)
          (if (sTrim row.reply_to).data.contains '.' then
            lookupRef (sTrim row.reply_to) st.refs
          else none)) with
    | ok res =>
      rw [hp] at he
      simp only [List.mem_singleton] at he
      rw [he]
    | error err =>
      rw [hp] at he
      simp only [List.mem_singleton] at he
      rw [he]

/-- Witness for `claimC3`: the concrete self record registers `"T0"`
under row index `"0"`, and the concrete comment's Publisher call takes
its thread id from the index entry at the first dot-segment of its
`reply_to`. -/
theorem claimC3_witness :
    (processRecord envT (0, rowSelfT, "k0") initW).1.refs =
      setRef (natStr 0) "T0" initW.refs ∧
    (("k1", PubCall.reply "bB" "T0" "body1" none) : Event).2 =
      commentCall envT rowCom1T [("0", "T0")] :=
  ⟨claimC3.1 envT initW 0 rowSelfT "k0" ⟨"T0", "P0"⟩ (by decide) (by decide)
      rfl rfl,
   claimC3.2 envT ⟨["k0"], [("0", "T0")], 1⟩ 1 rowCom1T "k1" (by decide)
      (by decide) rfl (by decide)
      ("k1", PubCall.reply "bB" "T0" "body1" none) (by decide)⟩

/-! ## Claim C4 -/

/-- The `submit_thread` call a single-pass `self` record makes (lines
235–242): as in watch mode, but the community fallback is the fixed
`community_0_bot_0` entry. -/
def onceSelfCall (env : WEnv) (row : CRow) : PubCall :=
  let botId := (env.accountMap (sTrim row.account)).getD ""
  let c0 := sTrim row.community
  PubCall.thread botId
    (if c0 = "" then env.defaultCommunity.getD "" else c0)
    (sTrim row.title) (sTrim row.body)

/-- **C4, counterexample.** Over two in-order ticks, the comment row
with `rowId "1"` (`reply_to "0"`, CSV row index 1) publishes
successfully — its Publisher event is the second of the trace and its
post id `"P1"` does appear in the index — but looking up its own
identifier `"1"` in the ReplyIndex yields nothing: the code stored
`"P1"` under the row's `reply_to` reference `"0"` instead
(`post_refs[reply_to] = result["postId"]`, line 436), overwriting the
thread id.  This refutes "after a comment row with rowId r is published
with result post id p, looking up r in the index yields p". -/
theorem claimC4_cex :
    (runWatch envT ticksT2 initW).2.map Prod.fst =
      ["0:2025-01-01:10:00", "1:2025-01-01:10:05"] ∧
    lookupRef "1" (runWatch envT ticksT2 initW).1.refs = none ∧
    lookupRef "0" (runWatch envT ticksT2 initW).1.refs = some "P1" :=
  ⟨rfl, rfl, rfl⟩

/-- **C4 (amended).** What the ReplyIndex actually maps after every
successful publish: in watch mode a `comment` row's result post id is
stored under the row's *`reply_to` reference* (the parent's id, not the
row's own id) and a `self` row's thread id under the row's CSV row
index; in single-pass mode a `comment` row's post id is likewise stored
under its `reply_to` and a `self` row's thread id under the decimal
count of previously stored references. -/
theorem claimC4 :
    (∀ (env : WEnv) (st : WState) (i : Nat) (row : CRow) (key : String)
        (res : PubResult),
      falsy (env.accountMap (sTrim row.account)) = false →
      falsy (env.botTokens
        ((env.accountMap (sTrim row.account)).getD "")) = false →
      sTrim row.kind = "comment" →
      falsy (lookupRef (threadRefOf (sTrim row.reply_to)) st.refs) = false →
      env.pub st.calls (commentCall env row st.refs) = .ok res →
      (processRecord env (i, row, key) st).1.refs =
        setRef (sTrim row.reply_to) res.postId st.refs) ∧
    (∀ (env : WEnv) (st : WState) (i : Nat) (row : CRow) (key : String)
        (res : PubResult),
      falsy (env.accountMap (sTrim row.account)) = false →
      falsy (env.botTokens
        ((env.accountMap (sTrim row.account)).getD "")) = false →
      sTrim row.kind = "self" →
      env.pub st.calls (selfCall env row) = .ok res →
      (processRecord env (i, row, key) st).1.refs =
        setRef (natStr i) res.threadId st.refs) ∧
    (∀ (env : WEnv) (today : String) (row : CRow) (st : OState)
        (res : PubResult),
      row.datetime = today →
      falsy (env.accountMap (sTrim row.account)) = false →
      falsy (env.botTokens
        ((env.accountMap (sTrim row.account)).getD "")) = false →
      sTrim row.kind = "comment" →
      falsy (lookupRef (threadRefOf (sTrim row.reply_to)) st.refs) = false →
      env.pub st.calls (commentCall env row st.refs) = .ok res →
      (runOnceStep env today row st).1.refs =
        setRef (sTrim row.reply_to) res.postId st.refs) ∧
    (∀ (env : WEnv) (today : String) (row : CRow) (st : OState)
        (res : PubResult),
      row.datetime = today →
      falsy (env.accountMap (sTrim row.account)) = false →
      falsy (env.botTokens
        ((env.accountMap (sTrim row.account)).getD "")) = false →
      sTrim row.kind = "self" →
      env.pub st.calls (onceSelfCall env row) = .ok res →
      (runOnceStep env today row st).1.refs =
        setRef (natStr st.refs.length) res.threadId st.refs) := by
  refine ⟨?_, ?_, ?_, ?_⟩
  · intro env st i row key res hacc htok hcom hlive hres
    unfold commentCall at hres
    simp only [] at hres
    unfold processRecord
    simp only []
    rw [if_neg (by simp [hacc]), if_neg (by simp [htok]),
      if_neg (by rw [hcom]; decide), if_pos hcom,
      if_neg (by simp [hlive]), hres]
  · intro env st i row key res hacc htok hself hres
    unfold selfCall at hres
    simp only [] at hres
    unfold processRecord
    simp only []
    rw [if_neg (by simp [hacc]), if_neg (by simp [htok]), if_pos hself, hres]
  · intro env today row st res hdate hacc htok hcom hlive hres
    unfold commentCall at hres
    simp only [] at hres
    unfold runOnceStep
    simp only []
    rw [if_neg (by simp [hdate]), if_neg (by simp [hacc]),
      if_neg (by simp [htok]), if_neg (by rw [hcom]; decide), if_pos hcom,
      if_neg (by simp [hlive]), hres]
  · intro env today row st res hdate hacc htok hself hres
    unfold onceSelfCall at hres
    simp only [] at hres
    unfold runOnceStep
    simp only []
    rw [if_neg (by simp [hdate]), if_neg (by simp [hacc]),
      if_neg (by simp [htok]), if_pos hself, hres]

/-- Witness for `claimC4`: concrete registrations in both modes. -/
theorem claimC4_witness :
    (processRecord envT (1, rowCom1T, "k1") ⟨["k0"], [("0", "T0")], 1⟩).1.refs =
      setRef "0" "P1" [("0", "T0")] ∧
    (runOnceStep envT "2025-01-01" rowSelfT ⟨[], 0⟩).1.refs =
      setRef (natStr 0) "T0" [] :=
  ⟨claimC4.1 envT ⟨["k0"], [("0", "T0")], 1⟩ 1 rowCom1T "k1" ⟨"T1", "P1"⟩
      (by decide) (by decide) rfl (by decide) rfl,
   claimC4.2.2.2 envT "2025-01-01" rowSelfT ⟨[], 0⟩ ⟨"T0", "P0"⟩ rfl
      (by decide) (by decide) rfl rfl⟩

/-! ## Claim C5 -/

/-- Present reply-index lookups stay present across a tick. -/
theorem runTick_refs_isSome_mono (env : WEnv) (t : Tick) (st : WState)
    (q : String) (h : (lookupRef q st.refs).isSome) :
    (lookupRef q (runTick env t st).1.refs).isSome := by
  unfold runTick
  by_cases hdue : (dueList t.rows t.cd t.ct st.executed).isEmpty
  · simpa [hdue] using h
  · simp only [hdue, Bool.false_eq_true, if_false]
    exact processBatch_refs_isSome_mono env _ st q h

/-- Present reply-index lookups stay present across a single-pass row. -/
theorem runOnceStep_refs_isSome_mono (env : WEnv) (today : String)
    (row : CRow) (st : OState) (q : String)
    (h : (lookupRef q st.refs).isSome) :
    (lookupRef q (runOnceStep env today row st).1.refs).isSome := by
  unfold runOnceStep
  simp only []
  repeat' split
  all_goals first
    | exact h
    | exact lookupRef_setRef_isSome _ _ _ h

/-- **C5, counterexample.** After the first tick the ReplyIndex binds
`"0"` to the thread identifier `"T0"`; after the second tick the same
key is bound to `"P1"` — the successfully published comment overwrote
the binding with its own post id (`post_refs[reply_to] =
result["postId"]`).  This refutes "once a reference key is bound to a
platform identifier, every operation preserves that binding unchanged". -/
theorem claimC5_cex :
    lookupRef "0" (runWatch envT [mkTick rowsT "10:00"] initW).1.refs =
      some "T0" ∧
    lookupRef "0" (runWatch envT ticksT2 initW).1.refs = some "P1" ∧
    ("T0" : String) ≠ "P1" :=
  ⟨rfl, rfl, by decide⟩

/-- **C5 (amended).** The ReplyIndex's *key set* grows monotonically
over the process lifetime and is never removed from: every key present
in the index stays present across any further execution, in both
continuous mode (any sequence of ticks) and single-pass mode (any
sequence of rows).  A key's bound identifier, however, may be
overwritten by a later comment publish whose `reply_to` equals that key
(`claimC5_cex`). -/
theorem claimC5 :
    (∀ (env : WEnv) (ticks : List Tick) (st : WState) (q : String),
      (lookupRef q st.refs).isSome →
      (lookupRef q (runWatch env ticks st).1.refs).isSome) ∧
    (∀ (env : WEnv) (today : String) (rows : List CRow) (st : OState)
        (q : String),
      (lookupRef q st.refs).isSome →
      (lookupRef q (runOnce env today rows st).1.refs).isSome) := by
  constructor
  · intro env ticks
    induction ticks with
    | nil => intro st q h; simpa [runWatch] using h
    | cons t ts ih =>
      intro st q h
      exact ih _ q (runTick_refs_isSome_mono env t st q h)
  · intro env today rows
    induction rows with
    | nil => intro st q h; simpa [runOnce] using h
    | cons row rows ih =>
      intro st q h
      exact ih _ q (runOnceStep_refs_isSome_mono env today row st q h)

/-- Witness for `claimC5`: a binding present before a concrete tick is
still present after it. -/
theorem claimC5_witness :
    (lookupRef "z" (runWatch envT ticksT2 ⟨[], [("z", "Tz")], 0⟩).1.refs).isSome :=
  claimC5.1 envT ticksT2 ⟨[], [("z", "Tz")], 0⟩ "z" (by decide)

/-! ## Claim C6 -/

/-- A key already in the ledger is never selected as due again. -/
theorem key_in_ex_not_due (rows : List CRow) (cd ct : String)
    (ex : List String) (key : String) (hk : key ∈ ex) :
    key ∉ (dueList rows cd ct ex).map fun x => x.2.2 := by
  intro hmem
  obtain ⟨x, hx, rfl⟩ := List.mem_map.mp hmem
  exact dueList_keys_not_ex x hx hk

/-- **C6.** In continuous mode, a record whose thread reference cannot
be resolved (`UnresolvedReference`: kind `comment` and a falsy
reply-index lookup of its thread reference) or whose Publisher call
fails (`PublishError`: the oracle returns an error, modelling any
`ForumProviderError`) is skipped: its ledger key is still marked
executed (first conjunct), nothing is registered in the ReplyIndex
(second), at most one — possibly failing — Publisher invocation is made
(third), the batch loop proceeds to the remaining records as a total
function, so no exception escapes (fourth, and the embedding itself is
total), and a key once in the ledger is never selected as due on any
later tick, so the record is never retried (fifth). -/
theorem claimC6 (env : WEnv) (i : Nat) (row : CRow) (key : String)
    (rest : List (Nat × CRow × String)) (st : WState)
    (hacc : falsy (env.accountMap (sTrim row.account)) = false)
    (htok : falsy (env.botTokens
      ((env.accountMap (sTrim row.account)).getD "")) = false)
    (hfail :
      (sTrim row.kind = "comment" ∧
        falsy (lookupRef (threadRefOf (sTrim row.reply_to)) st.refs) = true) ∨
      ((sTrim row.kind = "self" ∨ sTrim row.kind = "comment") ∧
        ∀ call, env.pub st.calls call = .error ())) :
    (processRecord env (i, row, key) st).1.executed = key :: st.executed ∧
    (processRecord env (i, row, key) st).1.refs = st.refs ∧
    (processRecord env (i, row, key) st).2.length ≤ 1 ∧
    processBatch env ((i, row, key) :: rest) st =
      ((processBatch env rest (processRecord env (i, row, key) st).1).1,
        (processRecord env (i, row, key) st).2 ++
          (processBatch env rest (processRecord env (i, row, key) st).1).2) ∧
    (∀ rows cd ct ex, key ∈ ex →
      key ∉ (dueList rows cd ct ex).map fun x => x.2.2) := by
  refine ⟨processRecord_executed env (i, row, key) st, ?_, ?_, rfl,
    fun rows cd ct ex hk => key_in_ex_not_due rows cd ct ex key hk⟩
  · unfold processRecord
    simp only []
    rw [if_neg (by simp [hacc]), if_neg (by simp [htok])]
    rcases hfail with ⟨hcom, hlookup⟩ | ⟨hkind, herr⟩
    · rw [if_neg (by rw [hcom]; decide), if_pos hcom, if_pos hlookup]
    · rcases hkind with hself | hcom
      · rw [if_pos hself, herr _]
      · rw [if_neg (by rw [hcom]; decide), if_pos hcom]
        by_cases hlv : falsy (lookupRef (threadRefOf (sTrim row.reply_to))
            st.refs) = true
        · rw [if_pos hlv]
        · rw [if_neg hlv, herr _]
  · rcases processRecord_keys env (i, row, key) st with hk | hk <;>
      · have := congrArg List.length hk
        simp only [List.length_map] at this
        simp [this]

/-- Witness for `claimC6`: the nested comment of the concrete schedule,
due while its thread reference `"1"` is unbound, is marked executed
with the index untouched, and its key is never due again. -/
theorem claimC6_witness :
    (processRecord envT (2, rowCom11T, "k2") initW).1.executed =
      "k2" :: initW.executed ∧
    (processRecord envT (2, rowCom11T, "k2") initW).1.refs = initW.refs ∧
    (processRecord envT (2, rowCom11T, "k2") initW).2.length ≤ 1 ∧
    "k2" ∉ (dueList rowsT "2025-01-01" "10:10" ["k2"]).map fun x => x.2.2 := by
  have h := claimC6 envT 2 rowCom11T "k2" [] initW (by decide) (by decide)
    (Or.inl ⟨rfl, by decide⟩)
  exact ⟨h.1, h.2.1, h.2.2.1,
    h.2.2.2.2 rowsT "2025-01-01" "10:10" ["k2"] (by decide)⟩

end Forum
